import Mathlib

/-!
Verification development for the `analyze-speech` edge function and its client
(`supabase/functions/analyze-speech/index.ts`, `src/pages/Index.tsx`).

The handler's logic is shallowly embedded: JavaScript objects produced by
`JSON.parse` are modelled by the `JsonValue` tree, numbers by the exact
fraction type `Q` (an unnormalized integer fraction, so that every operation
reduces in the kernel; `Q.toRat` maps it to `ℚ` and bridge lemmas relate the
operations), property access/assignment by `getField`/`setField` (assignment
to a non-object models the strict-mode TypeError and aborts via `Option`), and
each processing stage of the handler (validation, upstream-error
classification, tolerant JSON extraction, normalization) is a Lean function
translated line by line from the source.
-/

set_option autoImplicit false

set_option maxRecDepth 8192

namespace AnalyzeSpeech

/-- An exact fraction `num / den` (kept unnormalized so that all operations
compute by kernel reduction).  Every fraction built by the model has a
positive denominator. -/
structure Q where
  num : ℤ
  den : ℤ
deriving DecidableEq

namespace Q

def ofInt (n : ℤ) : Q := ⟨n, 1⟩

def ofNat (n : ℕ) : Q := ⟨(n : ℤ), 1⟩

def add (a b : Q) : Q := ⟨a.num * b.den + b.num * a.den, a.den * b.den⟩

def neg (a : Q) : Q := ⟨-a.num, a.den⟩

def mul (a b : Q) : Q := ⟨a.num * b.num, a.den * b.den⟩

/-- Reciprocal, with the sign moved to the numerator so that the denominator
stays positive. -/
def inv (a : Q) : Q := if a.num < 0 then ⟨-a.den, -a.num⟩ else ⟨a.den, a.num⟩

def div (a b : Q) : Q := mul a (inv b)

def sub (a b : Q) : Q := add a (neg b)

instance : Add Q := ⟨add⟩

instance : Neg Q := ⟨neg⟩

instance : Mul Q := ⟨mul⟩

instance : Div Q := ⟨div⟩

instance : Sub Q := ⟨sub⟩

instance : NatCast Q := ⟨ofNat⟩

instance : IntCast Q := ⟨ofInt⟩

instance (n : ℕ) : OfNat Q n := ⟨ofNat n⟩

/-- Is the value zero (JavaScript `=== 0` on an exact value)? -/
def isZero (a : Q) : Bool := a.num = 0

/-- Strict comparison `a < b` (for positive denominators). -/
def blt (a b : Q) : Bool := a.num * b.den < b.num * a.den

/-- Value equality `a == b` (for positive denominators). -/
def beq (a b : Q) : Bool := a.num * b.den = b.num * a.den

/-- `Math.floor` (for a positive denominator). -/
def floor (a : Q) : ℤ := Int.fdiv a.num a.den

/-- Truncation toward zero, as used by the JavaScript `%` operator. -/
def trunc (a : Q) : ℤ := Int.tdiv a.num a.den

/-- Powers of ten, for the JSON number exponent. -/
def pow10 (e : ℤ) : Q := if 0 ≤ e then ⟨10 ^ e.toNat, 1⟩ else ⟨1, 10 ^ (-e).toNat⟩

/-- The rational value denoted by a fraction. -/
def toRat (a : Q) : ℚ := (a.num : ℚ) / (a.den : ℚ)

theorem toRat_add (a b : Q) (ha : 0 < a.den) (hb : 0 < b.den) :
    (a + b).toRat = a.toRat + b.toRat := by
  show (add a b).toRat = _
  unfold toRat add
  have ha' : ((a.den : ℚ)) ≠ 0 := Int.cast_ne_zero.mpr ha.ne'
  have hb' : ((b.den : ℚ)) ≠ 0 := Int.cast_ne_zero.mpr hb.ne'
  push_cast
  field_simp

theorem toRat_mul (a b : Q) : (a * b).toRat = a.toRat * b.toRat := by
  show (mul a b).toRat = _
  unfold toRat mul
  push_cast
  rw [div_mul_div_comm]

theorem blt_iff (a b : Q) (ha : 0 < a.den) (hb : 0 < b.den) :
    blt a b = true ↔ a.toRat < b.toRat := by
  unfold blt toRat
  rw [div_lt_div_iff₀ (by exact_mod_cast ha) (by exact_mod_cast hb)]
  rw [decide_eq_true_eq]
  exact_mod_cast Iff.rfl

theorem floor_eq (a : Q) (ha : 0 < a.den) : a.floor = ⌊a.toRat⌋ := by
  unfold floor toRat
  obtain ⟨d, hd⟩ : ∃ d : ℕ, a.den = (d : ℤ) := ⟨a.den.toNat, (Int.toNat_of_nonneg ha.le).symm⟩
  rw [hd]
  rw [Int.fdiv_eq_ediv _ (by positivity)]
  push_cast
  exact (Rat.floor_intCast_div_natCast a.num d).symm

/-- One half, for `Math.round`. -/
def half : Q := ⟨1, 2⟩

end Q

/-- `Math.round`: round half toward positive infinity. -/
def jsRound (q : Q) : ℤ := (q + Q.half).floor

/-- The JavaScript remainder `a % b` (sign follows the dividend). -/
def jsMod (a b : Q) : Q := a - b * Q.ofInt (Q.trunc (a / b))

/-- `Number.prototype.toFixed(0)`: nearest integer, ties to the larger value
(the same rounding as `Math.round`). -/
def toFixed0 (q : Q) : String := toString (jsRound q)

/-- `Number.prototype.toFixed(1)` for the nonnegative sizes logged by the
validator. -/
def toFixed1 (q : Q) : String :=
  let n := jsRound (q * 10)
  toString (n / 10) ++ "." ++ toString (n % 10)

/-- `String.prototype.padStart(2, "0")`. -/
def padStart2 (s : String) : String :=
  if s.length ≥ 2 then s else String.mk (List.replicate (2 - s.length) '0') ++ s

/-- A JSON value / JavaScript data value as produced by `JSON.parse`. -/
inductive JsonValue where
  | null
  | bool (b : Bool)
  | num (q : Q)
  | str (s : String)
  | arr (elems : List JsonValue)
  | obj (fields : List (String × JsonValue))

/-- Replace the value of the first binding of `k`, or append a new binding. -/
def replaceOrAppend (fields : List (String × JsonValue)) (k : String) (v : JsonValue) :
    List (String × JsonValue) :=
  match fields with
  | [] => [(k, v)]
  | (k', v') :: rest => if k' = k then (k, v) :: rest else (k', v') :: replaceOrAppend rest k v

/-- Property read `o[k]`: `none` models JavaScript `undefined`. -/
def getField (v : JsonValue) (k : String) : Option JsonValue :=
  match v with
  | .obj fields => fields.lookup k
  | _ => none

/-- Property assignment `o[k] = v`.  Assigning to a non-object primitive throws
a TypeError in strict mode, modelled by `none`.  (Assignment to an array is
also modelled as a failure; the handler only assigns into `JSON.parse`d
objects, and array-valued fields never occur in the claims settled here.) -/
def setField (o : JsonValue) (k : String) (v : JsonValue) : Option JsonValue :=
  match o with
  | .obj fields => some (.obj (replaceOrAppend fields k v))
  | _ => none

/-- JavaScript truthiness of a value. -/
def jsTruthy (v : JsonValue) : Bool :=
  match v with
  | .null => false
  | .bool b => b
  | .num q => !q.isZero
  | .str s => !s.isEmpty
  | .arr _ => true
  | .obj _ => true

/-- Truthiness of a property read (`undefined` is falsy). -/
def jsTruthyOpt (v : Option JsonValue) : Bool :=
  match v with
  | none => false
  | some v => jsTruthy v

/-- One word entry of the Whisper `verbose_json` transcription
(`transcriptionData.words[i]`); `confidence` is `none` when the field is
absent. -/
structure WordData where
  word : String
  start : Q
  confidence : Option Q

/-- An entry of the `unclearWords` array built by the handler. -/
structure UnclearWord where
  word : String
  timestamp : Q
  confidence : Q
deriving DecidableEq

/-- The flagging condition of lines 161-169:
`wordData.confidence && wordData.confidence < 0.7`. -/
def unclearCond (w : WordData) : Bool :=
  match w.confidence with
  | some c => !c.isZero && Q.blt c ⟨7, 10⟩
  | none => false

/-- One `forEach` step of lines 161-169: push the word when flagged. -/
def unclearPush (acc : List UnclearWord) (w : WordData) : List UnclearWord :=
  match w.confidence with
  | some c =>
    if !c.isZero && Q.blt c ⟨7, 10⟩ then acc ++ [⟨w.word, w.start, c⟩] else acc
  | none => acc

/-- Lines 159-170: `words.forEach` pushing flagged words onto `unclearWords`. -/
def unclearWordsOf (words : List WordData) : List UnclearWord :=
  words.foldl unclearPush []

/-- Timestamp formatting used for synthesized mispronunciations (line 546):
`Math.floor(t / 60)` then `(t % 60).toFixed(0).padStart(2, "0")`. -/
def formatTimestamp (t : Q) : String :=
  toString (Q.floor (t / 60)) ++ ":" ++ padStart2 (toFixed0 (jsMod t 60))

/-- One synthesized mispronunciation entry (lines 544-549). -/
def mkMispronunciation (w : UnclearWord) : JsonValue :=
  .obj [("word", .str w.word),
        ("timestamp", .str (formatTimestamp w.timestamp)),
        ("issue", .str ("Unclear pronunciation (" ++ toFixed0 (w.confidence * 100) ++ "% confidence)")),
        ("correctPronunciation", .str w.word)]

/-- The JSON-decoded request body `{ audio, fileName, mimeType }`; absent
fields are `JsonValue.null` (destructuring yields `undefined`, which shares
its falsiness and its failing `typeof` check with `null`). -/
structure Req where
  audio : JsonValue
  fileName : JsonValue
  mimeType : JsonValue

/-- Environment secrets (only their presence matters to control flow). -/
structure Env where
  lovableKey : Bool
  groqKey : Bool

/-- A Whisper transcription response: HTTP outcome, error body text, and the
decoded fields used by the handler. -/
structure TransResp where
  ok : Bool
  status : Nat
  bodyText : String
  text : String
  duration : Q
  words : List WordData

/-- The Gemini analysis response: HTTP outcome, error body text, and (when
`ok`) `choices[0].message.content`. -/
structure AnalysisResp where
  ok : Bool
  status : Nat
  bodyText : String
  content : String

/-- `ALLOWED_MIME_TYPES` (lines 27-35). -/
def allowedMimeTypes : List String :=
  ["video/mp4", "video/webm", "audio/webm", "audio/mp4", "audio/m4a", "audio/mpeg", "audio/wav"]

/-- `MAX_FILE_SIZE_MB` (line 26). -/
def maxFileSizeMB : Q := 100

/-- A character of the base64 alphabet `[A-Za-z0-9+/]`. -/
def isB64Char (c : Char) : Bool :=
  c.isAlpha || c.isDigit || c = '+' || c = '/'

/-- The test `/^[A-Za-z0-9+/]*={0,2}$/.test(s)`: a run of alphabet characters
followed by at most two padding characters. -/
def base64FormatOk (s : String) : Bool :=
  let cs := s.toList
  let core := cs.takeWhile isB64Char
  let rest := cs.drop core.length
  rest.all (· = '=') && rest.length ≤ 2

/-- The audio payload as a string (the `typeof` checks only pass strings on). -/
def reqAudioStr (r : Req) : String :=
  match r.audio with
  | .str s => s
  | _ => ""

def reqMimeStr (r : Req) : String :=
  match r.mimeType with
  | .str s => s
  | _ => ""

/-- `audio && typeof audio === "string"`. -/
def audioPresent (r : Req) : Bool :=
  match r.audio with
  | .str s => !s.isEmpty
  | _ => false

/-- `mimeType && typeof mimeType === "string"`. -/
def mimePresent (r : Req) : Bool :=
  match r.mimeType with
  | .str s => !s.isEmpty
  | _ => false

/-- Lines 95-96: `audio.length * 3 / 4 / (1024 * 1024)`. -/
def estimatedSizeMB (r : Req) : Q :=
  Q.ofNat (reqAudioStr r).length * 3 / 4 / (1024 * 1024)

/-- Input validation, lines 81-105, in source order.  An `Except.error`
models the thrown `Error`, which the outer catch turns into a 500 envelope. -/
def validate (r : Req) : Except String Unit :=
  if !audioPresent r then .error "No audio/video data provided"
  else if !mimePresent r then .error "MIME type is required"
  else if !(allowedMimeTypes.contains (reqMimeStr r)) then
    .error ("Invalid file type \"" ++ reqMimeStr r ++ "\". Supported types: " ++
      String.intercalate ", " allowedMimeTypes)
  else if Q.blt maxFileSizeMB (estimatedSizeMB r) then
    .error ("File too large (" ++ toFixed1 (estimatedSizeMB r) ++ "MB). Maximum size is 100MB")
  else if !(base64FormatOk (reqAudioStr r)) then .error "Invalid base64 data format"
  else .ok ()

/-- Does `pat` occur at the head of `cs`? -/
def headMatch : List Char → List Char → Bool
  | [], _ => true
  | _ :: _, [] => false
  | a :: pat, b :: cs => a = b && headMatch pat cs

/-- `String.prototype.includes`: does `pat` occur anywhere in `cs`? -/
def containsSub (pat : List Char) : List Char → Bool
  | [] => pat.isEmpty
  | c :: rest => headMatch pat (c :: rest) || containsSub pat rest

/-- Classification of a failed analysis call, lines 398-413: the three thrown
messages in source order. -/
def classifyAnalysisError (status : Nat) (bodyText : String) : String :=
  if status = 503 || containsSub "Temporarily unavailable".toList bodyText.toList then
    "The AI service is temporarily unavailable. Please try again in a few minutes."
  else if status = 429 then
    "Too many requests. Please wait a moment and try again."
  else
    "AI service error (" ++ toString status ++ "). Please try again."

/-! ## A model of `JSON.parse` -/

/-- Characters written via code points to keep string literals plain. -/
def quoteChar : Char := Char.ofNat 34

def backslashChar : Char := Char.ofNat 92

def lbraceChar : Char := Char.ofNat 123

def rbraceChar : Char := Char.ofNat 125

def backtickChar : Char := Char.ofNat 96

/-- JSON insignificant whitespace. -/
def isJsonWS (c : Char) : Bool := c = ' ' || c = '\t' || c = '\n' || c = '\r'

def skipWs (cs : List Char) : List Char := cs.dropWhile isJsonWS

def hexVal (c : Char) : Option Nat :=
  if c.isDigit then some (c.toNat - 48)
  else if 'a' ≤ c ∧ c ≤ 'f' then some (c.toNat - 87)
  else if 'A' ≤ c ∧ c ≤ 'F' then some (c.toNat - 55)
  else none

def digitsToNat (ds : List Char) : Nat :=
  ds.foldl (fun n c => n * 10 + (c.toNat - 48)) 0

/-- Parse the remainder of a JSON string literal (the opening quote already
consumed), handling the JSON escape sequences and rejecting raw control
characters. -/
def parseStrChars : Nat → List Char → Option (List Char × List Char)
  | 0, _ => none
  | _ + 1, [] => none
  | f + 1, c :: rest =>
    if c = quoteChar then some ([], rest)
    else if c = backslashChar then
      match rest with
      | [] => none
      | e :: rest' =>
        let dec : Option (Char × List Char) :=
          if e = quoteChar then some (quoteChar, rest')
          else if e = backslashChar then some (backslashChar, rest')
          else if e = '/' then some ('/', rest')
          else if e = 'b' then some (Char.ofNat 8, rest')
          else if e = 'f' then some (Char.ofNat 12, rest')
          else if e = 'n' then some ('\n', rest')
          else if e = 'r' then some ('\r', rest')
          else if e = 't' then some ('\t', rest')
          else if e = 'u' then
            match rest' with
            | h1 :: h2 :: h3 :: h4 :: r2 =>
              match hexVal h1, hexVal h2, hexVal h3, hexVal h4 with
              | some a, some b, some c', some d =>
                some (Char.ofNat (((a * 16 + b) * 16 + c') * 16 + d), r2)
              | _, _, _, _ => none
            | _ => none
          else none
        match dec with
        | some (ch, r2) =>
          match parseStrChars f r2 with
          | some (s, r3) => some (ch :: s, r3)
          | none => none
        | none => none
    else if c.toNat < 32 then none
    else
      match parseStrChars f rest with
      | some (s, r3) => some (c :: s, r3)
      | none => none

/-- Parse a JSON number (strict grammar: no leading zeros, a digit required
after the decimal point and the exponent marker). -/
def parseNumber (cs : List Char) : Option (Q × List Char) :=
  let (neg, cs1) : Bool × List Char := match cs with
    | '-' :: r => (true, r)
    | _ => (false, cs)
  let intDs := cs1.takeWhile Char.isDigit
  let cs2 := cs1.drop intDs.length
  if intDs.isEmpty then none
  else if 1 < intDs.length ∧ intDs.head? = some '0' then none
  else
    let ip : Q := Q.ofNat (digitsToNat intDs)
    let step2 : Option (Q × List Char) :=
      match cs2 with
      | '.' :: r =>
        let fds := r.takeWhile Char.isDigit
        if fds.isEmpty then none
        else some (⟨(digitsToNat fds : ℤ), (10 : ℤ) ^ fds.length⟩, r.drop fds.length)
      | _ => some (0, cs2)
    match step2 with
    | none => none
    | some (fp, cs3) =>
      let stepE : Option (ℤ × List Char) :=
        match cs3 with
        | c :: r =>
          if c = 'e' ∨ c = 'E' then
            let (esign, r1) : ℤ × List Char := match r with
              | '+' :: rr => (1, rr)
              | '-' :: rr => (-1, rr)
              | _ => (1, r)
            let eds := r1.takeWhile Char.isDigit
            if eds.isEmpty then none
            else some (esign * (digitsToNat eds : ℤ), r1.drop eds.length)
          else some (0, cs3)
        | [] => some (0, cs3)
      match stepE with
      | none => none
      | some (ex, cs4) =>
        let mag : Q := (ip + fp) * Q.pow10 ex
        some (if neg then -mag else mag, cs4)

/-- Parsing mode: a full value, the members of an object (positioned at the
first key), or the items of an array (positioned at the first element). -/
inductive PMode where
  | value
  | members
  | items

/-- Recursive-descent JSON parser, structural on fuel. -/
def parseVal (f : Nat) (mode : PMode) (cs : List Char) : Option (JsonValue × List Char) :=
  match f with
  | 0 => none
  | f + 1 =>
    match mode with
    | .value =>
      let cs := skipWs cs
      match cs with
      | [] => none
      | c :: rest =>
        if c = lbraceChar then
          let cs2 := skipWs rest
          match cs2 with
          | d :: rest2 => if d = rbraceChar then some (.obj [], rest2) else parseVal f .members cs2
          | [] => none
        else if c = '[' then
          let cs2 := skipWs rest
          match cs2 with
          | d :: rest2 => if d = ']' then some (.arr [], rest2) else parseVal f .items cs2
          | [] => none
        else if c = quoteChar then
          match parseStrChars f rest with
          | some (s, r) => some (.str (String.mk s), r)
          | none => none
        else if c = 't' then
          match rest with
          | 'r' :: 'u' :: 'e' :: r => some (.bool true, r)
          | _ => none
        else if c = 'f' then
          match rest with
          | 'a' :: 'l' :: 's' :: 'e' :: r => some (.bool false, r)
          | _ => none
        else if c = 'n' then
          match rest with
          | 'u' :: 'l' :: 'l' :: r => some (.null, r)
          | _ => none
        else if c = '-' ∨ c.isDigit then
          match parseNumber cs with
          | some (q, r) => some (.num q, r)
          | none => none
        else none
    | .items =>
      match parseVal f .value cs with
      | none => none
      | some (v, rest) =>
        match skipWs rest with
        | [] => none
        | c :: rest2 =>
          if c = ',' then
            match parseVal f .items rest2 with
            | some (.arr vs, r) => some (.arr (v :: vs), r)
            | _ => none
          else if c = ']' then some (.arr [v], rest2)
          else none
    | .members =>
      let cs := skipWs cs
      match cs with
      | [] => none
      | c :: rest =>
        if c = quoteChar then
          match parseStrChars f rest with
          | none => none
          | some (k, rest1) =>
            match skipWs rest1 with
            | ':' :: rest2 =>
              match parseVal f .value rest2 with
              | none => none
              | some (v, rest3) =>
                match skipWs rest3 with
                | [] => none
                | d :: rest4 =>
                  if d = ',' then
                    match parseVal f .members rest4 with
                    | some (.obj fs, r) => some (.obj ((String.mk k, v) :: fs), r)
                    | _ => none
                  else if d = rbraceChar then some (.obj [(String.mk k, v)], rest4)
                  else none
            | _ => none
        else none

/-- `JSON.parse`: parse one value and require only whitespace to remain.
Failure (`none`) models the thrown `SyntaxError`. -/
def jsonParse (s : String) : Option JsonValue :=
  match parseVal (2 * s.length + 16) .value s.toList with
  | some (v, rest) => if (skipWs rest).isEmpty then some v else none
  | none => none

/-! ## The tolerant JSON extractor (`cleanAndParseJSON`, lines 421-481) -/

/-- The regex class `\s` (ASCII part). -/
def isJsWS (c : Char) : Bool :=
  c = ' ' || c = '\t' || c = '\n' || c = '\r' || c = Char.ofNat 11 || c = Char.ofNat 12

/-- One global replace of `/```json\s*/gi` by the empty string: scan left to
right, and on a match consume the marker together with the following
whitespace. -/
def stripJsonFencePass : Nat → List Char → List Char
  | 0, cs => cs
  | _ + 1, [] => []
  | f + 1, c :: rest =>
    match c :: rest with
    | b1 :: b2 :: b3 :: c4 :: c5 :: c6 :: c7 :: rest' =>
      if b1 = backtickChar ∧ b2 = backtickChar ∧ b3 = backtickChar ∧
          c4.toLower = 'j' ∧ c5.toLower = 's' ∧ c6.toLower = 'o' ∧ c7.toLower = 'n' then
        stripJsonFencePass f (rest'.dropWhile isJsWS)
      else c :: stripJsonFencePass f rest
    | _ => c :: stripJsonFencePass f rest

/-- One global replace of `/```\s*/g` by the empty string. -/
def stripFencePass : Nat → List Char → List Char
  | 0, cs => cs
  | _ + 1, [] => []
  | f + 1, c :: rest =>
    match c :: rest with
    | b1 :: b2 :: b3 :: rest' =>
      if b1 = backtickChar ∧ b2 = backtickChar ∧ b3 = backtickChar then
        stripFencePass f (rest'.dropWhile isJsWS)
      else c :: stripFencePass f rest
    | _ => c :: stripFencePass f rest

/-- `String.prototype.trim`. -/
def jsTrimList (cs : List Char) : List Char :=
  (((cs.dropWhile isJsWS).reverse).dropWhile isJsWS).reverse

/-- Line 425: strip the markdown fence markers and trim. -/
def cleanFences (cs : List Char) : List Char :=
  jsTrimList (stripFencePass (stripJsonFencePass cs.length cs).length
    (stripJsonFencePass cs.length cs))

/-- One global replace of `/,(\s*[}\]])/g` by `$1` (line 435): drop a comma
standing directly before (whitespace and) a closing brace or bracket;
scanning resumes after the kept group. -/
def removeTrailingCommasAux : Nat → List Char → List Char
  | 0, cs => cs
  | _ + 1, [] => []
  | f + 1, c :: rest =>
    if c = ',' then
      let ws := rest.takeWhile isJsWS
      let r := rest.drop ws.length
      match r with
      | b :: r' =>
        if b = rbraceChar ∨ b = ']' then ws ++ b :: removeTrailingCommasAux f r'
        else c :: removeTrailingCommasAux f rest
      | [] => c :: removeTrailingCommasAux f rest
    else c :: removeTrailingCommasAux f rest

def removeTrailingCommas (cs : List Char) : List Char :=
  removeTrailingCommasAux cs.length cs

/-- Lines 444-448 and the `jsonMatch` regex `/\{[\s\S]*\}/` (line 486): the
substring from the first opening brace to the last closing brace, when the
latter comes after the former. -/
def firstLastBrace (cs : List Char) : Option (List Char) :=
  match cs.findIdx? (· = lbraceChar), (cs.reverse.findIdx? (· = rbraceChar)).map
      (fun k => cs.length - 1 - k) with
  | some i, some j => if i < j then some ((cs.drop i).take (j - i + 1)) else none
  | _, _ => none

/-- Does `cs` match `\s*:?\s*` entirely? -/
def isWsColonWs (cs : List Char) : Bool :=
  match cs.dropWhile isJsWS with
  | [] => true
  | ':' :: r => (r.dropWhile isJsWS).isEmpty
  | _ => false

/-- Does the whole suffix `cs` match `,\s*"[^"]*"?\s*:?\s*("[^"]*)?$`?
After the mandatory comma, whitespace and opening quote, the remainder can
contain at most two quote characters, and with exactly two the span between
them must be whitespace around an optional colon. -/
def danglingMatch (cs : List Char) : Bool :=
  match cs with
  | ',' :: rest =>
    match rest.dropWhile isJsWS with
    | c :: t =>
      c = quoteChar &&
        (let q := t.count quoteChar
         q = 0 || q = 1 ||
           (q = 2 && isWsColonWs (((t.dropWhile (· ≠ quoteChar)).drop 1).takeWhile (· ≠ quoteChar))))
    | [] => false
  | _ => false

/-- Line 467: `fixedJson.replace(/,\s*"[^"]*"?\s*:?\s*("[^"]*)?$/, '')` — drop
the leftmost end-anchored dangling key/value fragment, if any. -/
def stripDangling : List Char → List Char
  | [] => []
  | c :: rest => if danglingMatch (c :: rest) then [] else c :: stripDangling rest

/-- Lines 457-479: the final repair attempt.  The bracket and brace counts are
taken on the text before the dangling fragment is stripped; the missing
closing brackets are appended first, then the missing closing braces. -/
def balanceFixed (cs : List Char) : List Char :=
  let openBraces := cs.count lbraceChar
  let closeBraces := cs.count rbraceChar
  let openBrackets := cs.count '['
  let closeBrackets := cs.count ']'
  let stripped := stripDangling cs
  stripped ++ List.replicate (openBrackets - closeBrackets) ']'
    ++ List.replicate (openBraces - closeBraces) rbraceChar

/-- Step 3 of the ladder (lines 443-454): parse the first-brace-to-last-brace
substring, when the braces exist in order. -/
def extractStep (cs : List Char) : Option JsonValue :=
  match firstLastBrace cs with
  | some ex => jsonParse (String.mk ex)
  | none => none

/-- Lines 421-481: the four-step repair ladder.  `none` models the exception
escaping `cleanAndParseJSON` when every step fails. -/
def cleanAndParseJSON (s : String) : Option JsonValue :=
  match jsonParse (String.mk (cleanFences s.toList)) with
  | some v => some v
  | none =>
    match jsonParse (String.mk (removeTrailingCommas (cleanFences s.toList))) with
    | some v => some v
    | none =>
      match extractStep (removeTrailingCommas (cleanFences s.toList)) with
      | some v => some v
      | none => jsonParse (String.mk (balanceFixed (removeTrailingCommas (cleanFences s.toList))))

/-- Lines 484-493: locate the JSON-looking region with `/\{[\s\S]*\}/` and
run the repair ladder on it. -/
def extractParsed (content : String) : Option JsonValue :=
  match firstLastBrace content.toList with
  | some ex => cleanAndParseJSON (String.mk ex)
  | none => none

/-! ## The result normalizer (lines 495-557) -/

/-- The default leaf installed by `ensureScoreObject` (line 505). -/
def defaultScoreLeaf : JsonValue :=
  .obj [("score", .num 5), ("feedback", .str "No specific feedback available.")]

/-- The leaf's numeric score `sub.score`, when it is a number. -/
def scoreNumVal (sub : JsonValue) : Option Q :=
  match getField sub "score" with
  | some (.num q) => some q
  | _ => none

/-- `typeof sub.score === "number"`. -/
def scoreIsNum (sub : JsonValue) : Bool := (scoreNumVal sub).isSome

/-- `if (!a[key]) a[key] = v` — the pattern of lines 496-501, 505, 509, 515,
521 and 529-540. -/
def fillIfFalsy (key : String) (v : JsonValue) (a : JsonValue) : Option JsonValue :=
  if jsTruthyOpt (getField a key) then some a else setField a key v

/-- Line 506: `if (typeof obj[key].score !== "number") obj[key].score = 5`. -/
def forceScoreNum (o1 : JsonValue) (key : String) : Option JsonValue :=
  if scoreIsNum ((getField o1 key).getD .null) then some o1
  else
    match setField ((getField o1 key).getD .null) "score" (.num 5) with
    | none => none
    | some sub' => setField o1 key sub'

/-- Lines 504-507: install a default leaf when `obj[key]` is falsy, then force
`obj[key].score` to a number. -/
def ensureScoreObject (o : JsonValue) (key : String) : Option JsonValue :=
  (fillIfFalsy key defaultScoreLeaf o).bind (forceScoreNum · key)

def ensureLeaves : List String → JsonValue → Option JsonValue
  | [], o => some o
  | k :: ks, o =>
    match ensureScoreObject o k with
    | some o' => ensureLeaves ks o'
    | none => none

/-- One group block (e.g. lines 509-513): default the group when falsy, then
run `ensureScoreObject` over its leaves (in-place mutation is modelled by
writing the updated group back). -/
def ensureGroup (g : String) (leaves : List String) (a : JsonValue) : Option JsonValue :=
  match fillIfFalsy g (.obj [("score", .num 5)]) a with
  | none => none
  | some a1 =>
    match getField a1 g with
    | some grp =>
      match ensureLeaves leaves grp with
      | some grp' => setField a1 g grp'
      | none => none
    | none => none

def vmLeaves : List String :=
  ["voiceClarity", "tonalVariation", "paceAndPauses", "fillersAndVerbalHabits"]

def tsLeaves : List String :=
  ["purposeArticulation", "logicalFlow", "signposting", "closureStrength"]

def vocabLeaves : List String :=
  ["sentenceEconomy", "specificity", "redundancyControl", "confidenceOfPhrasing", "grammar"]

/-- The thirteen required sub-metric leaves, grouped. -/
def requiredLeaves : List (String × String) :=
  (vmLeaves.map (fun l => ("voiceModulation", l))) ++
  (tsLeaves.map (fun l => ("thoughtStructure", l))) ++
  (vocabLeaves.map (fun l => ("vocabulary", l)))

def summaryDefault : String := "Analysis completed. Please review the detailed feedback below."

/-- `a.mispronunciations.length === 0` after a truthiness guard. -/
def jsLenZero (v : Option JsonValue) : Bool :=
  match v with
  | some (.arr xs) => xs.isEmpty
  | some (.str s) => s.isEmpty
  | _ => false

/-- Lines 542-550: synthesize mispronunciations from the low-confidence words
when the model produced none (absent or empty). -/
def fillMispron (unclear : List UnclearWord) (a : JsonValue) : Option JsonValue :=
  if !jsTruthyOpt (getField a "mispronunciations") || jsLenZero (getField a "mispronunciations") then
    setField a "mispronunciations" (.arr ((unclear.take 10).map mkMispronunciation))
  else some a

/-- Lines 495-550: the full normalization pass over the parsed analysis. -/
def normalizeAnalysis (t : TransResp) (unclear : List UnclearWord) (a : JsonValue) :
    Option JsonValue :=
  (fillIfFalsy "proficiencyLevel" (.str "Intermediate") a).bind fun a =>
  (fillIfFalsy "summary" (.str summaryDefault) a).bind fun a =>
  (ensureGroup "voiceModulation" vmLeaves a).bind fun a =>
  (ensureGroup "thoughtStructure" tsLeaves a).bind fun a =>
  (ensureGroup "vocabulary" vocabLeaves a).bind fun a =>
  (fillIfFalsy "wordsPerMinute"
    (.num (Q.ofInt (jsRound (Q.ofNat t.words.length / t.duration * 60)))) a).bind fun a =>
  (fillIfFalsy "totalWords" (.num (Q.ofNat t.words.length)) a).bind fun a =>
  (fillIfFalsy "durationSeconds" (.num (Q.ofInt (jsRound t.duration))) a).bind fun a =>
  (fillIfFalsy "fullTranscript" (.str t.text) a).bind fun a =>
  fillMispron unclear a

/-! ## The request handler (`serve`, lines 37-592) -/

/-- The upstream HTTP calls a request can issue, in order. -/
inductive UpstreamCall where
  | transcription
  | analysis
deriving DecidableEq

/-- The handler's observable outcome: a 200 response carrying the analysis, or
the error envelope `{ error: msg }` with its HTTP status. -/
inductive HandlerOutcome where
  | success (body : JsonValue)
  | failure (status : Nat) (errMsg : String)

/-- Line 564: the message rethrown when extraction or normalization fails. -/
def parseFailMsg : String :=
  "Failed to process analysis results. The AI response was incomplete. Please try again."

/-- The request body of the `serve` handler after authentication (lines
77-592), as a function of the request and the two upstream responses; the
second component records which upstream calls were issued, in order. -/
def serveModel (env : Env) (r : Req) (t : TransResp) (ar : AnalysisResp) :
    HandlerOutcome × List UpstreamCall :=
  match validate r with
  | .error e => (.failure 500 e, [])
  | .ok _ =>
    if !env.lovableKey then (.failure 500 "LOVABLE_API_KEY not configured", [])
    else if !env.groqKey then
      (.failure 500 "GROQ_API_KEY not configured. Please add it to your Supabase secrets.", [])
    else if !t.ok then
      (.failure 500 ("Transcription failed: " ++ t.bodyText), [.transcription])
    else
      let unclear := unclearWordsOf t.words
      if !ar.ok then
        (.failure 500 (classifyAnalysisError ar.status ar.bodyText), [.transcription, .analysis])
      else
        match extractParsed ar.content with
        | none => (.failure 500 parseFailMsg, [.transcription, .analysis])
        | some parsed =>
          match normalizeAnalysis t unclear parsed with
          | some out => (.success out, [.transcription, .analysis])
          | none => (.failure 500 parseFailMsg, [.transcription, .analysis])

/-! ## The client (`Index.tsx`, `analyzeMedia`, lines 42-145) -/

/-- `data.<g>?.score || 0` (lines 66-68).  `none` marks the one case the model
leaves out: a truthy non-numeric score, which JavaScript would coerce. -/
def groupScoreOrZero (data : JsonValue) (g : String) : Option Q :=
  match getField data g with
  | none => some 0
  | some grp =>
    match grp with
    | .null => some 0
    | _ =>
      match getField grp "score" with
      | none => some 0
      | some (.num q) => some q
      | some (.str s) => if s.isEmpty then some 0 else none
      | some (.bool b) => if b then none else some 0
      | some .null => some 0
      | some (.arr _) => none
      | some (.obj _) => none

/-- Line 69: `Math.round((voiceScore + structureScore + vocabScore) / 3 * 10) / 10`. -/
def overallScoreClient (data : JsonValue) : Option Q :=
  match groupScoreOrZero data "voiceModulation", groupScoreOrZero data "thoughtStructure",
      groupScoreOrZero data "vocabulary" with
  | some v, some s, some voc => some (Q.ofInt (jsRound ((v + s + voc) / 3 * 10)) / 10)
  | _, _, _ => none

/-- Lines 71-102: after the best-effort insert (whose error is only logged),
`setAnalysisResults(data)` runs unconditionally, so the displayed result is
`data` whatever the insert returned. -/
def clientShownResult (data : JsonValue) (saveResult : Except String Unit) : JsonValue :=
  match saveResult with
  | .ok _ => data
  | .error _ => data

/-! ## Field access lemmas -/

/-- The numeric score of the leaf `v[l].score`, when it is a number. -/
def scoreNumOf (v : JsonValue) (l : String) : Option Q :=
  (getField v l).bind scoreNumVal

/-- The numeric score of a group leaf `a[g][l].score`, when it is a number. -/
def glScore (a : JsonValue) (g l : String) : Option Q :=
  (getField a g).bind (fun grp => scoreNumOf grp l)

theorem lookup_replaceOrAppend_self (fs : List (String × JsonValue)) (k : String) (v : JsonValue) :
    (replaceOrAppend fs k v).lookup k = some v := by
  induction fs with
  | nil => simp [replaceOrAppend, List.lookup]
  | cons p rest ih =>
    obtain ⟨k', v'⟩ := p
    by_cases h : k' = k
    · simp [replaceOrAppend, h, List.lookup]
    · have hb : (k == k') = false := beq_eq_false_iff_ne.mpr (Ne.symm h)
      simpa [replaceOrAppend, h, List.lookup, hb] using ih

theorem lookup_replaceOrAppend_ne (fs : List (String × JsonValue)) (k : String) (v : JsonValue)
    (k' : String) (h : k' ≠ k) : (replaceOrAppend fs k v).lookup k' = fs.lookup k' := by
  have hb : (k' == k) = false := beq_eq_false_iff_ne.mpr h
  induction fs with
  | nil => simp [replaceOrAppend, List.lookup, hb]
  | cons p rest ih =>
    obtain ⟨k₀, v₀⟩ := p
    by_cases hk : k₀ = k
    · subst hk
      simp [replaceOrAppend, List.lookup, hb]
    · by_cases hk' : k₀ = k'
      · subst hk'
        simp [replaceOrAppend, hk, List.lookup]
      · have hb' : (k' == k₀) = false := beq_eq_false_iff_ne.mpr (Ne.symm hk')
        simpa [replaceOrAppend, hk, List.lookup, hb'] using ih

theorem getField_setField_self {o o' : JsonValue} {k : String} {v : JsonValue}
    (h : setField o k v = some o') : getField o' k = some v := by
  cases o <;> simp [setField] at h
  subst h
  simpa [getField] using lookup_replaceOrAppend_self _ k v

theorem getField_setField_ne {o o' : JsonValue} {k : String} {v : JsonValue} {k' : String}
    (h : setField o k v = some o') (hne : k' ≠ k) : getField o' k' = getField o k' := by
  cases o <;> simp [setField] at h
  subst h
  simpa [getField] using lookup_replaceOrAppend_ne _ k v k' hne

theorem scoreNumOf_congr {v v' : JsonValue} {l : String} (h : getField v' l = getField v l) :
    scoreNumOf v' l = scoreNumOf v l := by
  unfold scoreNumOf
  rw [h]

/-- A falsy property is never an object, so it carries no numeric score. -/
theorem scoreNumOf_of_falsy {o : JsonValue} {key : String}
    (hf : jsTruthyOpt (getField o key) = false) : scoreNumOf o key = none := by
  unfold scoreNumOf
  cases hg : getField o key with
  | none => rfl
  | some v =>
    rw [hg] at hf
    cases v <;> simp_all [jsTruthyOpt, jsTruthy, scoreNumVal, getField, Q.isZero]

theorem fillIfFalsy_ne {k : String} {v a a' : JsonValue} {k' : String}
    (h : fillIfFalsy k v a = some a') (hne : k' ≠ k) : getField a' k' = getField a k' := by
  unfold fillIfFalsy at h
  split at h
  · cases h
    rfl
  · exact getField_setField_ne h hne

theorem fillIfFalsy_self_truthy {k : String} {v a a' : JsonValue}
    (ht : jsTruthyOpt (getField a k) = true) (h : fillIfFalsy k v a = some a') : a' = a := by
  simp [fillIfFalsy, ht] at h
  exact h.symm

theorem fillIfFalsy_self_falsy {k : String} {v a a' : JsonValue}
    (hf : jsTruthyOpt (getField a k) = false) (h : fillIfFalsy k v a = some a') :
    getField a' k = some v := by
  simp [fillIfFalsy, hf] at h
  exact getField_setField_self h

theorem forceScoreNum_ne {o1 o' : JsonValue} {key k' : String}
    (h : forceScoreNum o1 key = some o') (hne : k' ≠ key) : getField o' k' = getField o1 k' := by
  unfold forceScoreNum at h
  split at h
  · cases h
    rfl
  · split at h
    · exact absurd h (by simp)
    · exact getField_setField_ne h hne

theorem forceScoreNum_score {o1 o' : JsonValue} {key : String}
    (h : forceScoreNum o1 key = some o') :
    scoreNumOf o' key = some ((scoreNumOf o1 key).getD 5) := by
  unfold forceScoreNum at h
  split at h
  case isTrue hnum =>
    cases h
    cases hg : getField o1 key with
    | none =>
      rw [hg] at hnum
      simp [scoreIsNum, scoreNumVal, getField] at hnum
    | some sub =>
      rw [hg] at hnum
      simp only [Option.getD_some, scoreIsNum, Option.isSome_iff_exists] at hnum
      obtain ⟨q, hq⟩ := hnum
      simp [scoreNumOf, hg, hq]
  case isFalse hnum =>
    split at h
    case h_1 => exact absurd h (by simp)
    case h_2 sub' hset =>
      have hsub : getField o' key = some sub' := getField_setField_self h
      have hscore : getField sub' "score" = some (.num 5) := getField_setField_self hset
      have h1 : scoreNumOf o' key = some 5 := by
        simp [scoreNumOf, hsub, scoreNumVal, hscore]
      rw [h1]
      cases hg : getField o1 key with
      | none => simp [scoreNumOf, hg]
      | some sub =>
        rw [hg] at hnum
        simp only [Option.getD_some, scoreIsNum, Option.isSome_iff_exists, not_exists] at hnum
        have hnone : scoreNumVal sub = none := by
          cases hv : scoreNumVal sub with
          | none => rfl
          | some q => exact absurd hv (hnum q)
        simp [scoreNumOf, hg, hnone]

theorem eso_ne {o o' : JsonValue} {key k' : String}
    (h : ensureScoreObject o key = some o') (hne : k' ≠ key) : getField o' k' = getField o k' := by
  unfold ensureScoreObject at h
  rw [Option.bind_eq_some] at h
  obtain ⟨o1, h1, h2⟩ := h
  rw [forceScoreNum_ne h2 hne]
  exact fillIfFalsy_ne h1 hne

theorem eso_score {o o' : JsonValue} {key : String} (h : ensureScoreObject o key = some o') :
    scoreNumOf o' key = some ((scoreNumOf o key).getD 5) := by
  unfold ensureScoreObject at h
  rw [Option.bind_eq_some] at h
  obtain ⟨o1, h1, h2⟩ := h
  cases ht : jsTruthyOpt (getField o key) with
  | true =>
    have : o1 = o := fillIfFalsy_self_truthy ht h1
    subst this
    exact forceScoreNum_score h2
  | false =>
    have hdef : getField o1 key = some defaultScoreLeaf := fillIfFalsy_self_falsy ht h1
    have h5 : scoreNumOf o1 key = some 5 := by
      unfold scoreNumOf
      rw [hdef]
      rfl
    rw [forceScoreNum_score h2, h5, scoreNumOf_of_falsy ht]
    rfl

theorem ensureLeaves_ne {ks : List String} {o o' : JsonValue} {k : String}
    (h : ensureLeaves ks o = some o') (hk : k ∉ ks) : getField o' k = getField o k := by
  induction ks generalizing o with
  | nil =>
    simp [ensureLeaves] at h
    rw [h]
  | cons k0 ks ih =>
    unfold ensureLeaves at h
    split at h
    case h_1 o1 h1 =>
      have hk0 : k ≠ k0 := fun hx => hk (hx ▸ List.mem_cons_self k0 ks)
      have hks : k ∉ ks := fun hx => hk (List.mem_cons_of_mem _ hx)
      rw [ih h hks]
      exact eso_ne h1 hk0
    case h_2 => exact absurd h (by simp)

theorem ensureLeaves_score {ks : List String} {o o' : JsonValue}
    (h : ensureLeaves ks o = some o') (hnd : ks.Nodup) {l : String} (hl : l ∈ ks) :
    scoreNumOf o' l = some ((scoreNumOf o l).getD 5) := by
  induction ks generalizing o with
  | nil => cases hl
  | cons k0 ks ih =>
    unfold ensureLeaves at h
    split at h
    case h_1 o1 h1 =>
      rcases List.mem_cons.mp hl with rfl | hl'
      · have hk0 : l ∉ ks := (List.nodup_cons.mp hnd).1
        rw [scoreNumOf_congr (ensureLeaves_ne h hk0)]
        exact eso_score h1
      · have hne : l ≠ k0 := by
          rintro rfl
          exact (List.nodup_cons.mp hnd).1 hl'
        rw [ih h (List.nodup_cons.mp hnd).2 hl']
        rw [scoreNumOf_congr (eso_ne h1 hne)]
    case h_2 => exact absurd h (by simp)

theorem ensureGroup_ne {g : String} {ks : List String} {a a' : JsonValue} {k' : String}
    (h : ensureGroup g ks a = some a') (hne : k' ≠ g) : getField a' k' = getField a k' := by
  unfold ensureGroup at h
  split at h
  case h_1 => exact Option.noConfusion h
  case h_2 a1 h1 =>
    split at h
    case h_2 => exact Option.noConfusion h
    case h_1 grp hgrp =>
      split at h
      case h_2 => exact Option.noConfusion h
      case h_1 grp' hgrp' =>
        rw [getField_setField_ne h hne]
        exact fillIfFalsy_ne h1 hne

theorem ensureGroup_score {g : String} {ks : List String} {a a' : JsonValue}
    (h : ensureGroup g ks a = some a') (hnd : ks.Nodup) {l : String} (hl : l ∈ ks)
    (hls : l ≠ "score") :
    glScore a' g l = some ((glScore a g l).getD 5) := by
  unfold ensureGroup at h
  split at h
  case h_1 => exact Option.noConfusion h
  case h_2 a1 h1 =>
    split at h
    case h_2 => exact Option.noConfusion h
    case h_1 grp hgrp =>
      split at h
      case h_2 => exact Option.noConfusion h
      case h_1 grp' hgrp' =>
        have hget : getField a' g = some grp' := getField_setField_self h
        have hscore := ensureLeaves_score hgrp' hnd hl
        unfold glScore
        rw [hget]
        have hb : ((some grp').bind fun grp => scoreNumOf grp l) = scoreNumOf grp' l := rfl
        rw [hb, hscore]
        cases ht : jsTruthyOpt (getField a g) with
        | true =>
          have ha1 : a1 = a := fillIfFalsy_self_truthy ht h1
          rw [ha1] at hgrp
          cases hg : getField a g with
          | none => rw [hg] at ht; simp [jsTruthyOpt] at ht
          | some grp0 =>
            rw [hg] at hgrp
            cases hgrp
            rfl
        | false =>
          have hdef : getField a1 g = some (.obj [("score", .num 5)]) :=
            fillIfFalsy_self_falsy ht h1
          rw [hdef] at hgrp
          cases hgrp
          have hnone : scoreNumOf (JsonValue.obj [("score", .num 5)]) l = none := by
            unfold scoreNumOf getField
            have hb : (l == "score") = false := beq_eq_false_iff_ne.mpr hls
            simp [List.lookup, hb]
          rw [hnone]
          cases hg : getField a g with
          | none => rfl
          | some v =>
            rw [hg] at ht
            cases v <;> simp_all [jsTruthyOpt, jsTruthy, scoreNumOf, scoreNumVal, getField, Q.isZero]

theorem fillMispron_ne {u : List UnclearWord} {a a' : JsonValue} {k' : String}
    (h : fillMispron u a = some a') (hne : k' ≠ "mispronunciations") :
    getField a' k' = getField a k' := by
  unfold fillMispron at h
  split at h
  · exact getField_setField_ne h hne
  · cases h
    rfl

theorem glScore_congr {a a' : JsonValue} {g l : String}
    (h : getField a' g = getField a g) : glScore a' g l = glScore a g l := by
  unfold glScore
  rw [h]

/-- Decompose a successful normalization run into its ten stages. -/
theorem normalize_parts {t : TransResp} {u : List UnclearWord} {a out : JsonValue}
    (h : normalizeAnalysis t u a = some out) :
    ∃ a1 a2 a3 a4 a5 a6 a7 a8 a9,
      fillIfFalsy "proficiencyLevel" (.str "Intermediate") a = some a1 ∧
      fillIfFalsy "summary" (.str summaryDefault) a1 = some a2 ∧
      ensureGroup "voiceModulation" vmLeaves a2 = some a3 ∧
      ensureGroup "thoughtStructure" tsLeaves a3 = some a4 ∧
      ensureGroup "vocabulary" vocabLeaves a4 = some a5 ∧
      fillIfFalsy "wordsPerMinute"
        (.num (Q.ofInt (jsRound (Q.ofNat t.words.length / t.duration * 60)))) a5 = some a6 ∧
      fillIfFalsy "totalWords" (.num (Q.ofNat t.words.length)) a6 = some a7 ∧
      fillIfFalsy "durationSeconds" (.num (Q.ofInt (jsRound t.duration))) a7 = some a8 ∧
      fillIfFalsy "fullTranscript" (.str t.text) a8 = some a9 ∧
      fillMispron u a9 = some out := by
  unfold normalizeAnalysis at h
  rw [Option.bind_eq_some] at h
  obtain ⟨a1, h1, h⟩ := h
  rw [Option.bind_eq_some] at h
  obtain ⟨a2, h2, h⟩ := h
  rw [Option.bind_eq_some] at h
  obtain ⟨a3, h3, h⟩ := h
  rw [Option.bind_eq_some] at h
  obtain ⟨a4, h4, h⟩ := h
  rw [Option.bind_eq_some] at h
  obtain ⟨a5, h5, h⟩ := h
  rw [Option.bind_eq_some] at h
  obtain ⟨a6, h6, h⟩ := h
  rw [Option.bind_eq_some] at h
  obtain ⟨a7, h7, h⟩ := h
  rw [Option.bind_eq_some] at h
  obtain ⟨a8, h8, h⟩ := h
  rw [Option.bind_eq_some] at h
  obtain ⟨a9, h9, h⟩ := h
  exact ⟨a1, a2, a3, a4, a5, a6, a7, a8, a9, h1, h2, h3, h4, h5, h6, h7, h8, h9, h⟩

/-- After normalization, a voiceModulation leaf carries its original numeric
score, or the default 5 when it had none. -/
theorem normalize_vm_leaf {t : TransResp} {u : List UnclearWord} {a out : JsonValue}
    (h : normalizeAnalysis t u a = some out) {l : String} (hl : l ∈ vmLeaves) :
    glScore out "voiceModulation" l = some ((glScore a "voiceModulation" l).getD 5) := by
  obtain ⟨a1, a2, a3, a4, a5, a6, a7, a8, a9, h1, h2, h3, h4, h5, h6, h7, h8, h9, h10⟩ :=
    normalize_parts h
  have hls : l ≠ "score" := by
    intro hscr
    rw [hscr] at hl
    revert hl
    decide
  have e3 := ensureGroup_score h3 (by decide) hl hls
  have hchain : glScore out "voiceModulation" l = glScore a3 "voiceModulation" l := by
    rw [glScore_congr (fillMispron_ne h10 (by decide)),
      glScore_congr (fillIfFalsy_ne h9 (by decide)),
      glScore_congr (fillIfFalsy_ne h8 (by decide)),
      glScore_congr (fillIfFalsy_ne h7 (by decide)),
      glScore_congr (fillIfFalsy_ne h6 (by decide)),
      glScore_congr (ensureGroup_ne h5 (by decide)),
      glScore_congr (ensureGroup_ne h4 (by decide))]
  rw [hchain, e3, glScore_congr (fillIfFalsy_ne h2 (by decide)),
    glScore_congr (fillIfFalsy_ne h1 (by decide))]

/-- After normalization, a thoughtStructure leaf carries its original numeric
score, or the default 5 when it had none. -/
theorem normalize_ts_leaf {t : TransResp} {u : List UnclearWord} {a out : JsonValue}
    (h : normalizeAnalysis t u a = some out) {l : String} (hl : l ∈ tsLeaves) :
    glScore out "thoughtStructure" l = some ((glScore a "thoughtStructure" l).getD 5) := by
  obtain ⟨a1, a2, a3, a4, a5, a6, a7, a8, a9, h1, h2, h3, h4, h5, h6, h7, h8, h9, h10⟩ :=
    normalize_parts h
  have hls : l ≠ "score" := by
    intro hscr
    rw [hscr] at hl
    revert hl
    decide
  have e4 := ensureGroup_score h4 (by decide) hl hls
  have hchain : glScore out "thoughtStructure" l = glScore a4 "thoughtStructure" l := by
    rw [glScore_congr (fillMispron_ne h10 (by decide)),
      glScore_congr (fillIfFalsy_ne h9 (by decide)),
      glScore_congr (fillIfFalsy_ne h8 (by decide)),
      glScore_congr (fillIfFalsy_ne h7 (by decide)),
      glScore_congr (fillIfFalsy_ne h6 (by decide)),
      glScore_congr (ensureGroup_ne h5 (by decide))]
  rw [hchain, e4, glScore_congr (ensureGroup_ne h3 (by decide)),
    glScore_congr (fillIfFalsy_ne h2 (by decide)),
    glScore_congr (fillIfFalsy_ne h1 (by decide))]

/-- After normalization, a vocabulary leaf carries its original numeric score,
or the default 5 when it had none. -/
theorem normalize_voc_leaf {t : TransResp} {u : List UnclearWord} {a out : JsonValue}
    (h : normalizeAnalysis t u a = some out) {l : String} (hl : l ∈ vocabLeaves) :
    glScore out "vocabulary" l = some ((glScore a "vocabulary" l).getD 5) := by
  obtain ⟨a1, a2, a3, a4, a5, a6, a7, a8, a9, h1, h2, h3, h4, h5, h6, h7, h8, h9, h10⟩ :=
    normalize_parts h
  have hls : l ≠ "score" := by
    intro hscr
    rw [hscr] at hl
    revert hl
    decide
  have e5 := ensureGroup_score h5 (by decide) hl hls
  have hchain : glScore out "vocabulary" l = glScore a5 "vocabulary" l := by
    rw [glScore_congr (fillMispron_ne h10 (by decide)),
      glScore_congr (fillIfFalsy_ne h9 (by decide)),
      glScore_congr (fillIfFalsy_ne h8 (by decide)),
      glScore_congr (fillIfFalsy_ne h7 (by decide)),
      glScore_congr (fillIfFalsy_ne h6 (by decide))]
  rw [hchain, e5, glScore_congr (ensureGroup_ne h4 (by decide)),
    glScore_congr (ensureGroup_ne h3 (by decide)),
    glScore_congr (fillIfFalsy_ne h2 (by decide)),
    glScore_congr (fillIfFalsy_ne h1 (by decide))]

/-- After normalization, each of the thirteen required leaves carries its
original numeric score, or the default 5 when it had none. -/
theorem normalize_glScore {t : TransResp} {u : List UnclearWord} {a out : JsonValue}
    (h : normalizeAnalysis t u a = some out) :
    ∀ p ∈ requiredLeaves, glScore out p.1 p.2 = some ((glScore a p.1 p.2).getD 5) := by
  intro p hp
  fin_cases hp
  · exact normalize_vm_leaf h (by decide)
  · exact normalize_vm_leaf h (by decide)
  · exact normalize_vm_leaf h (by decide)
  · exact normalize_vm_leaf h (by decide)
  · exact normalize_ts_leaf h (by decide)
  · exact normalize_ts_leaf h (by decide)
  · exact normalize_ts_leaf h (by decide)
  · exact normalize_ts_leaf h (by decide)
  · exact normalize_voc_leaf h (by decide)
  · exact normalize_voc_leaf h (by decide)
  · exact normalize_voc_leaf h (by decide)
  · exact normalize_voc_leaf h (by decide)
  · exact normalize_voc_leaf h (by decide)

theorem fillIfFalsy_get {k : String} {v a a' : JsonValue} (h : fillIfFalsy k v a = some a') :
    getField a' k = if jsTruthyOpt (getField a k) then getField a k else some v := by
  cases ht : jsTruthyOpt (getField a k)
  · simp only [Bool.false_eq_true, if_false]
    exact fillIfFalsy_self_falsy ht h
  · simp only [if_true]
    rw [fillIfFalsy_self_truthy ht h]

/-- Lines 529-531: the wordsPerMinute field after normalization — kept when
truthy, otherwise computed from the transcription metadata. -/
theorem normalize_wpm {t : TransResp} {u : List UnclearWord} {a out : JsonValue}
    (h : normalizeAnalysis t u a = some out) :
    getField out "wordsPerMinute" =
      if jsTruthyOpt (getField a "wordsPerMinute") then getField a "wordsPerMinute"
      else some (.num (Q.ofInt (jsRound (Q.ofNat t.words.length / t.duration * 60)))) := by
  obtain ⟨a1, a2, a3, a4, a5, a6, a7, a8, a9, h1, h2, h3, h4, h5, h6, h7, h8, h9, h10⟩ :=
    normalize_parts h
  have epre : getField a5 "wordsPerMinute" = getField a "wordsPerMinute" := by
    rw [ensureGroup_ne h5 (by decide), ensureGroup_ne h4 (by decide),
      ensureGroup_ne h3 (by decide), fillIfFalsy_ne h2 (by decide),
      fillIfFalsy_ne h1 (by decide)]
  have epost : getField out "wordsPerMinute" = getField a6 "wordsPerMinute" := by
    rw [fillMispron_ne h10 (by decide), fillIfFalsy_ne h9 (by decide),
      fillIfFalsy_ne h8 (by decide), fillIfFalsy_ne h7 (by decide)]
  rw [epost, fillIfFalsy_get h6, epre]

/-- Lines 532-534: the totalWords field after normalization. -/
theorem normalize_totalWords {t : TransResp} {u : List UnclearWord} {a out : JsonValue}
    (h : normalizeAnalysis t u a = some out) :
    getField out "totalWords" =
      if jsTruthyOpt (getField a "totalWords") then getField a "totalWords"
      else some (.num (Q.ofNat t.words.length)) := by
  obtain ⟨a1, a2, a3, a4, a5, a6, a7, a8, a9, h1, h2, h3, h4, h5, h6, h7, h8, h9, h10⟩ :=
    normalize_parts h
  have epre : getField a6 "totalWords" = getField a "totalWords" := by
    rw [fillIfFalsy_ne h6 (by decide), ensureGroup_ne h5 (by decide),
      ensureGroup_ne h4 (by decide), ensureGroup_ne h3 (by decide),
      fillIfFalsy_ne h2 (by decide), fillIfFalsy_ne h1 (by decide)]
  have epost : getField out "totalWords" = getField a7 "totalWords" := by
    rw [fillMispron_ne h10 (by decide), fillIfFalsy_ne h9 (by decide),
      fillIfFalsy_ne h8 (by decide)]
  rw [epost, fillIfFalsy_get h7, epre]

/-- Lines 535-537: the durationSeconds field after normalization. -/
theorem normalize_duration {t : TransResp} {u : List UnclearWord} {a out : JsonValue}
    (h : normalizeAnalysis t u a = some out) :
    getField out "durationSeconds" =
      if jsTruthyOpt (getField a "durationSeconds") then getField a "durationSeconds"
      else some (.num (Q.ofInt (jsRound t.duration))) := by
  obtain ⟨a1, a2, a3, a4, a5, a6, a7, a8, a9, h1, h2, h3, h4, h5, h6, h7, h8, h9, h10⟩ :=
    normalize_parts h
  have epre : getField a7 "durationSeconds" = getField a "durationSeconds" := by
    rw [fillIfFalsy_ne h7 (by decide), fillIfFalsy_ne h6 (by decide),
      ensureGroup_ne h5 (by decide), ensureGroup_ne h4 (by decide),
      ensureGroup_ne h3 (by decide), fillIfFalsy_ne h2 (by decide),
      fillIfFalsy_ne h1 (by decide)]
  have epost : getField out "durationSeconds" = getField a8 "durationSeconds" := by
    rw [fillMispron_ne h10 (by decide), fillIfFalsy_ne h9 (by decide)]
  rw [epost, fillIfFalsy_get h8, epre]

/-- Lines 538-540: the fullTranscript field after normalization. -/
theorem normalize_transcript {t : TransResp} {u : List UnclearWord} {a out : JsonValue}
    (h : normalizeAnalysis t u a = some out) :
    getField out "fullTranscript" =
      if jsTruthyOpt (getField a "fullTranscript") then getField a "fullTranscript"
      else some (.str t.text) := by
  obtain ⟨a1, a2, a3, a4, a5, a6, a7, a8, a9, h1, h2, h3, h4, h5, h6, h7, h8, h9, h10⟩ :=
    normalize_parts h
  have epre : getField a8 "fullTranscript" = getField a "fullTranscript" := by
    rw [fillIfFalsy_ne h8 (by decide), fillIfFalsy_ne h7 (by decide),
      fillIfFalsy_ne h6 (by decide), ensureGroup_ne h5 (by decide),
      ensureGroup_ne h4 (by decide), ensureGroup_ne h3 (by decide),
      fillIfFalsy_ne h2 (by decide), fillIfFalsy_ne h1 (by decide)]
  have epost : getField out "fullTranscript" = getField a9 "fullTranscript" := by
    rw [fillMispron_ne h10 (by decide)]
  rw [epost, fillIfFalsy_get h9, epre]

/-- Lines 542-550: when the parsed analysis has no mispronunciations (absent,
otherwise falsy, or an empty array), normalization installs one synthesized
entry per low-confidence word, capped at ten. -/
theorem normalize_mispron {t : TransResp} {u : List UnclearWord} {a out : JsonValue}
    (h : normalizeAnalysis t u a = some out)
    (hc : (!jsTruthyOpt (getField a "mispronunciations") ||
      jsLenZero (getField a "mispronunciations")) = true) :
    getField out "mispronunciations" = some (.arr ((u.take 10).map mkMispronunciation)) := by
  obtain ⟨a1, a2, a3, a4, a5, a6, a7, a8, a9, h1, h2, h3, h4, h5, h6, h7, h8, h9, h10⟩ :=
    normalize_parts h
  have epre : getField a9 "mispronunciations" = getField a "mispronunciations" := by
    rw [fillIfFalsy_ne h9 (by decide), fillIfFalsy_ne h8 (by decide),
      fillIfFalsy_ne h7 (by decide), fillIfFalsy_ne h6 (by decide),
      ensureGroup_ne h5 (by decide), ensureGroup_ne h4 (by decide),
      ensureGroup_ne h3 (by decide), fillIfFalsy_ne h2 (by decide),
      fillIfFalsy_ne h1 (by decide)]
  unfold fillMispron at h10
  rw [epre, hc] at h10
  simp only [if_true] at h10
  exact getField_setField_self h10

/-! ## Characterization of the unclear-word scan -/

theorem unclearPush_eq (acc : List UnclearWord) (w : WordData) :
    unclearPush acc w =
      acc ++ (if unclearCond w then [⟨w.word, w.start, w.confidence.getD 0⟩] else []) := by
  unfold unclearPush unclearCond
  cases hc : w.confidence with
  | none => simp
  | some c =>
    by_cases hlt : (!c.isZero && Q.blt c ⟨7, 10⟩) = true
    · simp [hlt]
    · simp [hlt]

theorem foldl_unclearPush (words : List WordData) (acc : List UnclearWord) :
    words.foldl unclearPush acc =
      acc ++ (words.filter unclearCond).map (fun w => ⟨w.word, w.start, w.confidence.getD 0⟩) := by
  induction words generalizing acc with
  | nil => simp
  | cons w ws ih =>
    rw [List.foldl_cons, unclearPush_eq, ih, List.filter_cons]
    by_cases hc : unclearCond w = true
    · simp [hc]
    · simp only [Bool.not_eq_true] at hc
      simp [hc]

/-- The unclear-word list is exactly the flagged words, in order. -/
theorem unclearWordsOf_eq (words : List WordData) :
    unclearWordsOf words =
      (words.filter unclearCond).map (fun w => ⟨w.word, w.start, w.confidence.getD 0⟩) := by
  unfold unclearWordsOf
  rw [foldl_unclearPush]
  rfl

/-! ## Fence stripping on fence-free content -/

/-- No backtick occurs, hence no fence marker either. -/
def backtickFree (cs : List Char) : Bool := cs.all fun c => c != backtickChar

/-- The markdown wrapping of scenario C: a fenced block with language tag. -/
def wrapFence (s : String) : String :=
  String.mk ([backtickChar, backtickChar, backtickChar, 'j', 's', 'o', 'n', '\n'] ++
    s.toList ++ ['\n', backtickChar, backtickChar, backtickChar])

theorem sjfp_cons_ne (f : Nat) (c : Char) (rest : List Char) (hc : c ≠ backtickChar) :
    stripJsonFencePass (f + 1) (c :: rest) = c :: stripJsonFencePass f rest := by
  match rest with
  | [] => rfl
  | [a1] => rfl
  | [a1, a2] => rfl
  | [a1, a2, a3] => rfl
  | [a1, a2, a3, a4] => rfl
  | [a1, a2, a3, a4, a5] => rfl
  | a1 :: a2 :: a3 :: a4 :: a5 :: a6 :: rest' =>
    show (if c = backtickChar ∧ a1 = backtickChar ∧ a2 = backtickChar ∧
        a3.toLower = 'j' ∧ a4.toLower = 's' ∧ a5.toLower = 'o' ∧ a6.toLower = 'n' then
        stripJsonFencePass f (rest'.dropWhile isJsWS)
      else c :: stripJsonFencePass f (a1 :: a2 :: a3 :: a4 :: a5 :: a6 :: rest')) = _
    rw [if_neg fun hh => hc hh.1]

theorem sfp_cons_ne (f : Nat) (c : Char) (rest : List Char) (hc : c ≠ backtickChar) :
    stripFencePass (f + 1) (c :: rest) = c :: stripFencePass f rest := by
  match rest with
  | [] => rfl
  | [a1] => rfl
  | a1 :: a2 :: rest' =>
    show (if c = backtickChar ∧ a1 = backtickChar ∧ a2 = backtickChar then
        stripFencePass f (rest'.dropWhile isJsWS)
      else c :: stripFencePass f (a1 :: a2 :: rest')) = _
    rw [if_neg fun hh => hc hh.1]

theorem sjfp_id (f : Nat) (cs : List Char) (hb : backtickFree cs = true) :
    stripJsonFencePass f cs = cs := by
  induction f generalizing cs with
  | zero => rfl
  | succ f ih =>
    cases cs with
    | nil => rfl
    | cons c rest =>
      simp only [backtickFree, List.all_cons, Bool.and_eq_true, bne_iff_ne] at hb
      rw [sjfp_cons_ne f c rest hb.1, ih rest (by simp [backtickFree, hb.2])]

theorem sfp_id (f : Nat) (cs : List Char) (hb : backtickFree cs = true) :
    stripFencePass f cs = cs := by
  induction f generalizing cs with
  | zero => rfl
  | succ f ih =>
    cases cs with
    | nil => rfl
    | cons c rest =>
      simp only [backtickFree, List.all_cons, Bool.and_eq_true, bne_iff_ne] at hb
      rw [sfp_cons_ne f c rest hb.1, ih rest (by simp [backtickFree, hb.2])]

theorem sjfp_nil : ∀ f, stripJsonFencePass f [] = []
  | 0 => rfl
  | _ + 1 => rfl

theorem sjfp_bt1 : ∀ f, stripJsonFencePass f [backtickChar] = [backtickChar]
  | 0 => rfl
  | f + 1 => by
    show backtickChar :: stripJsonFencePass f [] = _
    rw [sjfp_nil]

theorem sjfp_bt2 : ∀ f, stripJsonFencePass f [backtickChar, backtickChar] =
    [backtickChar, backtickChar]
  | 0 => rfl
  | f + 1 => by
    show backtickChar :: stripJsonFencePass f [backtickChar] = _
    rw [sjfp_bt1]

theorem sjfp_bt3 : ∀ f,
    stripJsonFencePass f [backtickChar, backtickChar, backtickChar] =
      [backtickChar, backtickChar, backtickChar]
  | 0 => rfl
  | f + 1 => by
    show backtickChar :: stripJsonFencePass f [backtickChar, backtickChar] = _
    rw [sjfp_bt2]

/-- The first pass leaves fence-free content followed by the closing fence
unchanged: the closing three backticks are not followed by a language tag. -/
theorem sjfp_fence_tail (d : List Char) (hb : backtickFree d = true) :
    ∀ f, stripJsonFencePass f (d ++ '\n' :: backtickChar :: backtickChar :: backtickChar :: []) =
      d ++ '\n' :: backtickChar :: backtickChar :: backtickChar :: [] := by
  induction d with
  | nil =>
    intro f
    cases f with
    | zero => rfl
    | succ f =>
      rw [List.nil_append, sjfp_cons_ne f '\n' _ (by decide), sjfp_bt3]
  | cons c d' ih =>
    intro f
    simp only [backtickFree, List.all_cons, Bool.and_eq_true, bne_iff_ne] at hb
    cases f with
    | zero => rfl
    | succ f =>
      rw [List.cons_append, sjfp_cons_ne f c _ hb.1,
        ih (by simp [backtickFree, hb.2]) f]

theorem sfp_nil : ∀ f, stripFencePass f [] = []
  | 0 => rfl
  | _ + 1 => rfl

/-- The second pass removes the trailing closing fence from fence-free
content (given enough fuel to reach it). -/
theorem sfp_fence_tail (d : List Char) (hb : backtickFree d = true) :
    ∀ f, d.length + 2 ≤ f →
      stripFencePass f (d ++ '\n' :: backtickChar :: backtickChar :: backtickChar :: []) =
        d ++ ['\n'] := by
  induction d with
  | nil =>
    intro f hf
    obtain ⟨f2, rfl⟩ : ∃ f2, f = f2 + 2 := ⟨f - 2, by omega⟩
    rw [List.nil_append, sfp_cons_ne (f2 + 1) '\n' _ (by decide)]
    have h3 : stripFencePass (f2 + 1) [backtickChar, backtickChar, backtickChar] =
        stripFencePass f2 [] := rfl
    rw [h3, sfp_nil]
    rfl
  | cons c d' ih =>
    intro f hf
    simp only [backtickFree, List.all_cons, Bool.and_eq_true, bne_iff_ne] at hb
    obtain ⟨f1, rfl⟩ : ∃ f1, f = f1 + 1 := ⟨f - 1, by omega⟩
    rw [List.cons_append, sfp_cons_ne f1 c _ hb.1,
      ih (by simp [backtickFree, hb.2]) f1 (by simp at hf; omega)]
    rfl

/-- On fence-free text the two stripping passes are the identity, so cleaning
is just trimming. -/
theorem cleanFences_bare (s : String) (hb : backtickFree s.toList = true) :
    cleanFences s.toList = jsTrimList s.toList := by
  unfold cleanFences
  rw [sjfp_id _ _ hb, sfp_id _ _ hb]

theorem sjfp_fence_head (f : Nat) (rest : List Char) :
    stripJsonFencePass (f + 1)
      (backtickChar :: backtickChar :: backtickChar :: 'j' :: 's' :: 'o' :: 'n' :: rest) =
    stripJsonFencePass f (rest.dropWhile isJsWS) := by
  show (if backtickChar = backtickChar ∧ backtickChar = backtickChar ∧
      backtickChar = backtickChar ∧ Char.toLower 'j' = 'j' ∧ Char.toLower 's' = 's' ∧
      Char.toLower 'o' = 'o' ∧ Char.toLower 'n' = 'n' then
      stripJsonFencePass f (rest.dropWhile isJsWS)
    else backtickChar :: stripJsonFencePass f
      (backtickChar :: backtickChar :: 'j' :: 's' :: 'o' :: 'n' :: rest)) = _
  rw [if_pos (by decide)]

/-- The first element surviving `dropWhile` fails the predicate. -/
theorem dropWhile_head_false {p : Char → Bool} (l : List Char) {c : Char} {d : List Char}
    (h : l.dropWhile p = c :: d) : p c = false := by
  induction l with
  | nil => simp at h
  | cons x xs ih =>
    rw [List.dropWhile_cons] at h
    split at h
    · exact ih h
    · cases h
      simp_all

/-- Cleaning the fenced wrapping of non-blank fence-free text gives the same
string as trimming the bare text. -/
theorem cleanFences_wrap (s : String) (hb : backtickFree s.toList = true)
    (hnw : s.toList.all isJsWS = false) :
    cleanFences (wrapFence s).toList = jsTrimList s.toList := by
  have hlist : (wrapFence s).toList =
      backtickChar :: backtickChar :: backtickChar :: 'j' :: 's' :: 'o' :: 'n' ::
        ('\n' :: (s.toList ++ '\n' :: backtickChar :: backtickChar :: backtickChar :: [])) := by
    simp [wrapFence]
  have hdne : s.toList.dropWhile isJsWS ≠ [] := by
    intro hnil
    rw [List.dropWhile_eq_nil_iff] at hnil
    rw [List.all_eq_false] at hnw
    obtain ⟨x, hx, hpx⟩ := hnw
    exact hpx (hnil x hx)
  have hbd : backtickFree (s.toList.dropWhile isJsWS) = true := by
    rw [backtickFree, List.all_eq_true]
    intro c hc
    rw [backtickFree, List.all_eq_true] at hb
    exact hb c ((List.dropWhile_sublist isJsWS).subset hc)
  have hdrop : List.dropWhile isJsWS
      (s.toList ++ '\n' :: backtickChar :: backtickChar :: backtickChar :: []) =
      s.toList.dropWhile isJsWS ++ '\n' :: backtickChar :: backtickChar :: backtickChar :: [] := by
    rw [List.dropWhile_append]
    rw [if_neg]
    rw [List.isEmpty_iff]
    exact hdne
  have hpass1 : ∀ f, stripJsonFencePass (f + 1) (wrapFence s).toList =
      s.toList.dropWhile isJsWS ++ '\n' :: backtickChar :: backtickChar :: backtickChar :: [] := by
    intro f
    rw [hlist, sjfp_fence_head]
    rw [List.dropWhile_cons_of_pos (by decide)]
    rw [hdrop]
    exact sjfp_fence_tail _ hbd f
  have hlen : (wrapFence s).toList.length = s.toList.length + 11 + 1 := by
    rw [hlist]
    simp
  unfold cleanFences
  rw [hlen, hpass1]
  rw [sfp_fence_tail _ hbd _ (by simp)]
  obtain ⟨c, d', hdd⟩ : ∃ c d', s.toList.dropWhile isJsWS = c :: d' := by
    cases hx : s.toList.dropWhile isJsWS with
    | nil => exact absurd hx hdne
    | cons c d' => exact ⟨c, d', rfl⟩
  have hch : isJsWS c = false := dropWhile_head_false s.toList hdd
  unfold jsTrimList
  rw [hdd, List.cons_append, List.dropWhile_cons_of_neg (by simp [hch])]
  rw [show (c :: (d' ++ ['\n'])).reverse = '\n' :: (c :: d').reverse from by simp]
  rw [List.dropWhile_cons_of_pos (by decide)]

theorem Q.isZero_iff (a : Q) (ha : 0 < a.den) : a.isZero = true ↔ a.toRat = 0 := by
  unfold Q.isZero Q.toRat
  rw [div_eq_zero_iff, decide_eq_true_eq]
  constructor
  · intro h
    exact Or.inl (by exact_mod_cast h)
  · rintro (h | h)
    · exact_mod_cast h
    · exact absurd h (by exact_mod_cast ha.ne')

/-- `Math.round` agrees with the mathematical specification on every
well-formed fraction. -/
theorem jsRound_eq (q : Q) (hq : 0 < q.den) : jsRound q = ⌊q.toRat + 1 / 2⌋ := by
  unfold jsRound
  have hden : (q + Q.half).den = q.den * 2 := rfl
  rw [Q.floor_eq _ (by rw [hden]; omega)]
  rw [Q.toRat_add q Q.half hq (by decide)]
  norm_num [Q.toRat, Q.half]

/-! ## Concrete fixtures used by the claim witnesses and counterexamples -/

/-- A successful transcription: 60.0 seconds, 150 words, no confidence data. -/
def tFix : TransResp := ⟨true, 200, "", "hello world", ⟨60, 1⟩, List.replicate 150 ⟨"w", 0, none⟩⟩

/-- A request passing every validation check. -/
def reqFix : Req := ⟨.str "AAAA", .str "a.webm", .str "audio/webm"⟩

/-- A request with a MIME type outside the allowed set. -/
def reqQT : Req := ⟨.str "AAAA", .str "clip.mov", .str "video/quicktime"⟩

/-- A successful analysis response whose content defeats every repair step. -/
def arBad : AnalysisResp := ⟨true, 200, "", "\x7b:\x7d"⟩

/-- A failed analysis response: HTTP 503 with the provider outage marker. -/
def ar503 : AnalysisResp := ⟨false, 503, "Temporarily unavailable", ""⟩

/-- A low-confidence word at 75.3 seconds with confidence 0.45. -/
def uFix : UnclearWord := ⟨"hippopotamus", ⟨753, 10⟩, ⟨45, 100⟩⟩

/-- A parsed analysis whose voiceClarity leaf has the numeric score 0. -/
def aScoreZero : JsonValue :=
  .obj [("voiceModulation", .obj [("score", .num 5), ("voiceClarity", .obj [("score", .num 0)])])]

/-- A parsed analysis carrying its own (truthy) wordsPerMinute estimate. -/
def aWpm999 : JsonValue := .obj [("wordsPerMinute", .num 999)]

/-- The scenario input of C2: truncated mid-array, 2 unclosed brackets and 1
unclosed brace. -/
def exTruncated : String := "\x7b\"a\": [1, [2, 3"

/-- A well-formed JSON object for the round-trip scenario. -/
def exWellFormed : String := "\x7b\"a\": 1\x7d"

/-! ## The claims -/

/-- C1 (amended): after the Normalizer runs to completion, every one of the
thirteen required sub-metric leaves in the three groups exists and has a
numeric score; a leaf whose score was absent or non-numeric gets the default
5, and a leaf that already had a numeric score keeps that value unchanged
(even when it lies outside [1,10]). -/
theorem normalizer_required_leaves {t : TransResp} {u : List UnclearWord} {a out : JsonValue}
    (h : normalizeAnalysis t u a = some out) :
    ∀ p ∈ requiredLeaves, glScore out p.1 p.2 = some ((glScore a p.1 p.2).getD 5) :=
  normalize_glScore h

/-- C1 counterexample: a parsed analysis whose voiceClarity score is the
number 0 survives normalization with score 0, which does not lie in [1,10],
refuting the claim that every leaf score ends in that range. -/
theorem normalizer_leaf_score_out_of_range :
    ∃ out, normalizeAnalysis tFix [] aScoreZero = some out ∧
      ∃ q, glScore out "voiceModulation" "voiceClarity" = some q ∧
        q.toRat = 0 ∧ ¬(1 ≤ q.toRat ∧ q.toRat ≤ 10) := by
  have hsome : (normalizeAnalysis tFix [] aScoreZero).isSome = true := by rfl
  refine ⟨(normalizeAnalysis tFix [] aScoreZero).get hsome, (Option.some_get hsome).symm,
    0, by rfl, ?_, ?_⟩
  · rw [show (0 : Q) = ⟨0, 1⟩ from rfl]
    norm_num [Q.toRat]
  · rw [show (0 : Q) = ⟨0, 1⟩ from rfl]
    norm_num [Q.toRat]

/-- C1 witness: normalizing an empty analysis object yields the default score
5 on a required leaf. -/
theorem normalizer_required_leaves_witness :
    ∃ out, normalizeAnalysis tFix [] (.obj []) = some out ∧
      glScore out "voiceModulation" "voiceClarity" = some 5 := by
  have hsome : (normalizeAnalysis tFix [] (.obj [])).isSome = true := by rfl
  refine ⟨(normalizeAnalysis tFix [] (.obj [])).get hsome, (Option.some_get hsome).symm, ?_⟩
  have h := normalizer_required_leaves (Option.some_get hsome).symm
    ("voiceModulation", "voiceClarity") (by decide)
  exact h.trans (by rfl)

/-- C2: the final repair step counts open/close brackets and braces over the
text, strips the dangling trailing fragment, and appends exactly
(openBrackets − closeBrackets) brackets followed by (openBraces − closeBraces)
braces; on the scenario input with 2 unclosed brackets and 1 unclosed brace it
appends exactly two brackets then one brace and the result parses through the
ladder. -/
theorem balance_step_appends :
    (∀ cs : List Char, balanceFixed cs = stripDangling cs ++
        List.replicate (cs.count '[' - cs.count ']') ']' ++
        List.replicate (cs.count lbraceChar - cs.count rbraceChar) rbraceChar) ∧
    exTruncated.toList.count '[' - exTruncated.toList.count ']' = 2 ∧
    exTruncated.toList.count lbraceChar - exTruncated.toList.count rbraceChar = 1 ∧
    stripDangling exTruncated.toList = exTruncated.toList ∧
    balanceFixed exTruncated.toList = exTruncated.toList ++ [']', ']', rbraceChar] ∧
    cleanAndParseJSON exTruncated = some (.obj [("a", .arr [.num 1, .arr [.num 2, .num 3]])]) :=
  ⟨fun _ => rfl, by rfl, by rfl, by rfl, by rfl, by rfl⟩

/-- C3: when the JSON-looking region is missing or every repair step fails on
it, the handler returns the 500 error envelope with the incomplete-response
message — never a success payload and never silently substituted defaults. -/
theorem extraction_failure_fails_request (env : Env) (r : Req) (t : TransResp)
    (ar : AnalysisResp) (hv : validate r = .ok ()) (hk1 : env.lovableKey = true)
    (hk2 : env.groqKey = true) (ht : t.ok = true) (ha : ar.ok = true)
    (hfail : extractParsed ar.content = none) :
    serveModel env r t ar = (.failure 500 parseFailMsg, [.transcription, .analysis]) := by
  simp [serveModel, hv, hk1, hk2, ht, ha, hfail]

/-- C3 witness: the content consisting of an unparsable brace pair fails the
whole request with the parse-failure envelope. -/
theorem extraction_failure_fails_request_witness :
    serveModel ⟨true, true⟩ reqFix tFix arBad =
      (.failure 500 parseFailMsg, [.transcription, .analysis]) :=
  extraction_failure_fails_request ⟨true, true⟩ reqFix tFix arBad (by rfl) rfl rfl rfl rfl
    (by rfl)

/-- C4: a well-formed JSON object without fence characters parses to the same
object through the extractor whether it is given bare or wrapped in markdown
code fencing — the fence is stripped and the direct parse succeeds in both
cases. -/
theorem fence_round_trip (s : String) (v : JsonValue)
    (hb : backtickFree s.toList = true)
    (hp : jsonParse (String.mk (jsTrimList s.toList)) = some v) :
    cleanAndParseJSON s = some v ∧ cleanAndParseJSON (wrapFence s) = some v := by
  have hnw : s.toList.all isJsWS = false := by
    cases hcon : s.toList.all isJsWS with
    | false => rfl
    | true =>
      have hnil : jsTrimList s.toList = [] := by
        have hall : ∀ x ∈ s.toList, isJsWS x = true := by
          simpa [List.all_eq_true] using hcon
        have hnil0 : List.dropWhile isJsWS s.toList = [] :=
          List.dropWhile_eq_nil_iff.mpr hall
        unfold jsTrimList
        rw [hnil0]
        rfl
      rw [hnil] at hp
      have : jsonParse (String.mk []) = none := rfl
      rw [this] at hp
      exact Option.noConfusion hp
  constructor
  · unfold cleanAndParseJSON
    rw [cleanFences_bare s hb, hp]
  · unfold cleanAndParseJSON
    rw [cleanFences_wrap s hb hnw, hp]

/-- C4 witness: the round trip on a concrete well-formed object. -/
theorem fence_round_trip_witness :
    cleanAndParseJSON exWellFormed = some (.obj [("a", .num 1)]) ∧
    cleanAndParseJSON (wrapFence exWellFormed) = some (.obj [("a", .num 1)]) :=
  fence_round_trip exWellFormed (.obj [("a", .num 1)]) (by rfl) (by rfl)

/-- C5: a request whose payload fails validation is rejected with the 500
envelope carrying the validation message and the upstream call list stays
empty — no transcription or analysis request is ever issued. -/
theorem validation_rejects_before_upstream (env : Env) (r : Req) (t : TransResp)
    (ar : AnalysisResp) (e : String) (hv : validate r = .error e) :
    serveModel env r t ar = (.failure 500 e, []) := by
  simp [serveModel, hv]

/-- C5 witness: `mimeType = "video/quicktime"` is rejected before any
upstream call. -/
theorem validation_rejects_before_upstream_witness :
    serveModel ⟨true, true⟩ reqQT tFix ar503 =
      (.failure 500 ("Invalid file type \"video/quicktime\". Supported types: " ++
        "video/mp4, video/webm, audio/webm, audio/mp4, audio/m4a, audio/mpeg, audio/wav"), []) :=
  validation_rejects_before_upstream ⟨true, true⟩ reqQT tFix ar503 _ (by rfl)

/-- C6: a non-success analysis response is classified in source order — 503
or a body containing "Temporarily unavailable" first, then 429, then the
generic message carrying the status code — and surfaced as the 500 error
envelope; both upstream calls were made exactly once (no retry). -/
theorem classify_upstream_analysis_error (env : Env) (r : Req) (t : TransResp)
    (ar : AnalysisResp) (hv : validate r = .ok ()) (hk1 : env.lovableKey = true)
    (hk2 : env.groqKey = true) (ht : t.ok = true) (ha : ar.ok = false) :
    serveModel env r t ar =
      (.failure 500 (classifyAnalysisError ar.status ar.bodyText),
        [.transcription, .analysis]) ∧
    (ar.status = 503 ∨ containsSub "Temporarily unavailable".toList ar.bodyText.toList = true →
      classifyAnalysisError ar.status ar.bodyText =
        "The AI service is temporarily unavailable. Please try again in a few minutes.") ∧
    (ar.status ≠ 503 → containsSub "Temporarily unavailable".toList ar.bodyText.toList = false →
      ar.status = 429 →
      classifyAnalysisError ar.status ar.bodyText =
        "Too many requests. Please wait a moment and try again.") ∧
    (ar.status ≠ 503 → containsSub "Temporarily unavailable".toList ar.bodyText.toList = false →
      ar.status ≠ 429 →
      classifyAnalysisError ar.status ar.bodyText =
        "AI service error (" ++ toString ar.status ++ "). Please try again.") := by
  refine ⟨?_, ?_, ?_, ?_⟩
  · simp [serveModel, hv, hk1, hk2, ht, ha]
  · intro hd
    unfold classifyAnalysisError
    rcases hd with h | h
    · rw [if_pos (by rw [h]; simp)]
    · rw [if_pos (by rw [h, Bool.or_true])]
  · intro h1 h2 h3
    unfold classifyAnalysisError
    rw [if_neg (by rw [h2]; simp [h1]), if_pos (by simp [h3])]
  · intro h1 h2 h3
    unfold classifyAnalysisError
    rw [if_neg (by rw [h2]; simp [h1]), if_neg (by simp [h3])]

/-- C6 witness: scenario B — HTTP 503 with "Temporarily unavailable" in the
body yields the temporarily-unavailable envelope at status 500. -/
theorem classify_upstream_analysis_error_witness :
    serveModel ⟨true, true⟩ reqFix tFix ar503 =
      (.failure 500 "The AI service is temporarily unavailable. Please try again in a few minutes.",
        [.transcription, .analysis]) := by
  have h := classify_upstream_analysis_error ⟨true, true⟩ reqFix tFix ar503 (by rfl) rfl rfl
    rfl rfl
  rw [h.1, h.2.1 (Or.inl rfl)]

/-- C7 (amended): the transcription metadata fills `wordsPerMinute`,
`totalWords`, `durationSeconds` and `fullTranscript` only when the model's own
field is absent or falsy — a present truthy model value is kept, not
overridden; the computed rate is `Math.round(wordCount / duration * 60)`. -/
theorem transcription_metadata_fills {t : TransResp} {u : List UnclearWord} {a out : JsonValue}
    (h : normalizeAnalysis t u a = some out) :
    (jsTruthyOpt (getField a "wordsPerMinute") = false →
      getField out "wordsPerMinute" =
        some (.num (Q.ofInt (jsRound (Q.ofNat t.words.length / t.duration * 60))))) ∧
    (jsTruthyOpt (getField a "wordsPerMinute") = true →
      getField out "wordsPerMinute" = getField a "wordsPerMinute") ∧
    (jsTruthyOpt (getField a "totalWords") = false →
      getField out "totalWords" = some (.num (Q.ofNat t.words.length))) ∧
    (jsTruthyOpt (getField a "totalWords") = true →
      getField out "totalWords" = getField a "totalWords") ∧
    (jsTruthyOpt (getField a "durationSeconds") = false →
      getField out "durationSeconds" = some (.num (Q.ofInt (jsRound t.duration)))) ∧
    (jsTruthyOpt (getField a "durationSeconds") = true →
      getField out "durationSeconds" = getField a "durationSeconds") ∧
    (jsTruthyOpt (getField a "fullTranscript") = false →
      getField out "fullTranscript" = some (.str t.text)) ∧
    (jsTruthyOpt (getField a "fullTranscript") = true →
      getField out "fullTranscript" = getField a "fullTranscript") := by
  refine ⟨?_, ?_, ?_, ?_, ?_, ?_, ?_, ?_⟩
  · intro hx
    rw [normalize_wpm h, if_neg (by simp [hx])]
  · intro hx
    rw [normalize_wpm h, if_pos hx]
  · intro hx
    rw [normalize_totalWords h, if_neg (by simp [hx])]
  · intro hx
    rw [normalize_totalWords h, if_pos hx]
  · intro hx
    rw [normalize_duration h, if_neg (by simp [hx])]
  · intro hx
    rw [normalize_duration h, if_pos hx]
  · intro hx
    rw [normalize_transcript h, if_neg (by simp [hx])]
  · intro hx
    rw [normalize_transcript h, if_pos hx]

/-- C7 counterexample: with a truthy model estimate `wordsPerMinute = 999`
and transcription metadata giving 150, normalization keeps 999 — the
transcription value does not always override the model's field. -/
theorem transcription_metadata_not_overriding :
    ∃ out, normalizeAnalysis tFix [] aWpm999 = some out ∧
      getField out "wordsPerMinute" = some (.num 999) ∧
      jsRound (Q.ofNat tFix.words.length / tFix.duration * 60) = 150 ∧
      (999 : Q) ≠ Q.ofInt 150 := by
  have hsome : (normalizeAnalysis tFix [] aWpm999).isSome = true := by rfl
  exact ⟨(normalizeAnalysis tFix [] aWpm999).get hsome, (Option.some_get hsome).symm,
    by rfl, by rfl, by decide⟩

/-- C7 witness: scenario D — duration 60.0 s and 150 words with the model's
`wordsPerMinute` absent yields `round(150 / 60 * 60) = 150`. -/
theorem transcription_metadata_fills_witness :
    ∃ out, normalizeAnalysis tFix [] (.obj []) = some out ∧
      getField out "wordsPerMinute" = some (.num (Q.ofInt 150)) := by
  have hsome : (normalizeAnalysis tFix [] (.obj [])).isSome = true := by rfl
  refine ⟨(normalizeAnalysis tFix [] (.obj [])).get hsome, (Option.some_get hsome).symm, ?_⟩
  have h := (transcription_metadata_fills (Option.some_get hsome).symm).1 rfl
  exact h.trans (by rfl)

/-- C8: when the parsed analysis has no mispronunciations list (absent or
empty), the Normalizer synthesizes one entry per low-confidence word, capped
at ten, with the timestamp formatted as `floor(t/60)` colon the rounded
`t mod 60` zero-padded to two digits, and an issue string citing the rounded
confidence percentage. -/
theorem mispronunciation_synthesis {t : TransResp} {u : List UnclearWord} {a out : JsonValue}
    (h : normalizeAnalysis t u a = some out)
    (hc : (!jsTruthyOpt (getField a "mispronunciations") ||
      jsLenZero (getField a "mispronunciations")) = true) :
    getField out "mispronunciations" = some (.arr ((u.take 10).map (fun w =>
      .obj [("word", .str w.word),
            ("timestamp", .str (toString (Q.floor (w.timestamp / 60)) ++ ":" ++
              padStart2 (toString (jsRound (jsMod w.timestamp 60))))),
            ("issue", .str ("Unclear pronunciation (" ++
              toString (jsRound (w.confidence * 100)) ++ "% confidence)")),
            ("correctPronunciation", .str w.word)]))) ∧
    (u.take 10).length = min u.length 10 := by
  constructor
  · rw [normalize_mispron h hc]
    rfl
  · simp [List.length_take]
    omega

/-- C8 witness: one word at 75.3 s with confidence 0.45 synthesizes the entry
`1:15` / `Unclear pronunciation (45% confidence)`. -/
theorem mispronunciation_synthesis_witness :
    ∃ out, normalizeAnalysis tFix [uFix] (.obj []) = some out ∧
      getField out "mispronunciations" = some (.arr [.obj
        [("word", .str "hippopotamus"),
         ("timestamp", .str "1:15"),
         ("issue", .str "Unclear pronunciation (45% confidence)"),
         ("correctPronunciation", .str "hippopotamus")]]) := by
  have hsome : (normalizeAnalysis tFix [uFix] (.obj [])).isSome = true := by rfl
  refine ⟨(normalizeAnalysis tFix [uFix] (.obj [])).get hsome, (Option.some_get hsome).symm, ?_⟩
  have h := (mispronunciation_synthesis (Option.some_get hsome).symm (by rfl)).1
  exact h.trans (by rfl)

/-- C9: a transcription word is flagged as unclear exactly when its
confidence field is present, truthy and strictly below 0.7; confidence
exactly 0 (falsy) and confidence exactly 0.7 are never flagged. -/
theorem unclear_word_flagging :
    (∀ words : List WordData, unclearWordsOf words =
      (words.filter unclearCond).map (fun w => ⟨w.word, w.start, w.confidence.getD 0⟩)) ∧
    (∀ (w : WordData) (c : Q), w.confidence = some c → 0 < c.den →
      (unclearCond w = true ↔ c.toRat ≠ 0 ∧ c.toRat < 7 / 10)) ∧
    (∀ w : WordData, w.confidence = none → unclearCond w = false) ∧
    (∀ (w : WordData) (c : Q), w.confidence = some c → 0 < c.den → c.toRat = 0 →
      unclearCond w = false) ∧
    (∀ (w : WordData) (c : Q), w.confidence = some c → 0 < c.den → c.toRat = 7 / 10 →
      unclearCond w = false) := by
  have hsem : ∀ (w : WordData) (c : Q), w.confidence = some c → 0 < c.den →
      (unclearCond w = true ↔ c.toRat ≠ 0 ∧ c.toRat < 7 / 10) := by
    intro w c hc hden
    unfold unclearCond
    rw [hc]
    rw [Bool.and_eq_true, Bool.not_eq_true']
    have h1 : (c.isZero = false) ↔ c.toRat ≠ 0 := by
      simp only [ne_eq, ← Q.isZero_iff c hden]
      simp
    have h2 : (Q.blt c ⟨7, 10⟩ = true) ↔ c.toRat < 7 / 10 := by
      rw [Q.blt_iff c ⟨7, 10⟩ hden (by decide)]
      have : (⟨7, 10⟩ : Q).toRat = 7 / 10 := by
        norm_num [Q.toRat]
      rw [this]
    rw [h1, h2]
  refine ⟨unclearWordsOf_eq, hsem, ?_, ?_, ?_⟩
  · intro w hw
    unfold unclearCond
    rw [hw]
  · intro w c hc hden h0
    cases hu : unclearCond w with
    | false => rfl
    | true => exact absurd ((hsem w c hc hden).mp hu).1 (by simp [h0])
  · intro w c hc hden h7
    cases hu : unclearCond w with
    | false => rfl
    | true =>
      have := ((hsem w c hc hden).mp hu).2
      rw [h7] at this
      exact absurd this (lt_irrefl _)

/-- C9 witness: confidence 0 and confidence 0.7 are not flagged; the scan on
a singleton behaves as the filter characterization predicts. -/
theorem unclear_word_flagging_witness :
    unclearCond ⟨"a", 0, some ⟨0, 1⟩⟩ = false ∧
    unclearCond ⟨"b", 0, some ⟨7, 10⟩⟩ = false ∧
    unclearWordsOf [⟨"c", 0, some ⟨45, 100⟩⟩] =
      ([⟨"c", 0, some ⟨45, 100⟩⟩].filter unclearCond).map
        (fun w => ⟨w.word, w.start, w.confidence.getD 0⟩) :=
  ⟨unclear_word_flagging.2.2.2.1 _ ⟨0, 1⟩ rfl (by decide) (by norm_num [Q.toRat]),
   unclear_word_flagging.2.2.2.2 _ ⟨7, 10⟩ rfl (by decide) (by norm_num [Q.toRat]),
   unclear_word_flagging.1 _⟩

/-- C10: the client computes the persisted overall score as
`Math.round((voice + structure + vocab) / 3 * 10) / 10` where an absent group
or score contributes 0, and the displayed analysis result is the same
whether the best-effort insert succeeded or failed. -/
theorem client_overall_score :
    (∀ (data : JsonValue) (v s voc : Q),
      groupScoreOrZero data "voiceModulation" = some v →
      groupScoreOrZero data "thoughtStructure" = some s →
      groupScoreOrZero data "vocabulary" = some voc →
      overallScoreClient data = some (Q.ofInt (jsRound ((v + s + voc) / 3 * 10)) / 10)) ∧
    (∀ (data : JsonValue) (g : String), getField data g = none →
      groupScoreOrZero data g = some 0) ∧
    (∀ (data grp : JsonValue) (g : String), getField data g = some grp →
      getField grp "score" = none → grp ≠ .null → groupScoreOrZero data g = some 0) ∧
    (∀ (data : JsonValue) (res : Except String Unit), clientShownResult data res = data) := by
  refine ⟨?_, ?_, ?_, ?_⟩
  · intro data v s voc hv hs hvoc
    unfold overallScoreClient
    rw [hv, hs, hvoc]
  · intro data g hg
    unfold groupScoreOrZero
    rw [hg]
  · intro data grp g hg hsc hnn
    unfold groupScoreOrZero
    rw [hg]
    cases grp
    case null => exact absurd rfl hnn
    all_goals simp [hsc]
  · intro data res
    cases res <;> rfl

/-- The concrete client payload used by the C10 witness. -/
def dataFix : JsonValue :=
  .obj [("voiceModulation", .obj [("score", .num 7)]),
    ("thoughtStructure", .obj [("score", .num 8)]),
    ("vocabulary", .obj [("score", .num 6)])]

/-- C10 witness: group scores 7, 8, 6 produce overall 7 (70/10 exactly). -/
theorem client_overall_score_witness :
    overallScoreClient dataFix = some ⟨70, 10⟩ ∧
    clientShownResult (.obj []) (.error "insert failed") = .obj [] :=
  ⟨(client_overall_score.1 dataFix 7 8 6 rfl rfl rfl).trans (by rfl),
   client_overall_score.2.2.2 (.obj []) (.error "insert failed")⟩

end AnalyzeSpeech
